import Mathlib

/-!
# The chain33 logging facade (`common/log` and `common/log/log15`)

A shallow embedding of `log15/logger.go` and `log.go`.

* Go values of type `interface{}` are the closed type `Val`.
* A `zapcore.Field` is a `Field`; `zap.Any` and `zap.Array` are its constructors.
* Calls on the shared engine `DefaultLog` are recorded as `Entry` values, in call order.
* Slices are `Slice` headers over backing arrays kept in a heap, so that aliasing between
  a facade and the facades derived from it can be stated.
-/

namespace Log15

/-! ## Severities -/

/-- The severities of `zapcore.Level`, least severe first. -/
inductive Level where
  | Debug
  | Info
  | Warn
  | Error
  | DPanic
  | Panic
  | Fatal
  deriving DecidableEq, Repr

/-- The lower-case name `zapcore.Level.String` gives a level. -/
def Level.String : Level → String
  | .Debug => "debug"
  | .Info => "info"
  | .Warn => "warn"
  | .Error => "error"
  | .DPanic => "dpanic"
  | .Panic => "panic"
  | .Fatal => "fatal"

/-- `LvlFromString` of `logger.go`: the level and the error (`none` is Go's `nil` error). -/
def LvlFromString (lvlString : String) : Level × Option String :=
  if lvlString = "debug" ∨ lvlString = "dbug" then
    (Level.Debug, none)
  else if lvlString = "info" then
    (Level.Info, none)
  else if lvlString = "warn" then
    (Level.Warn, none)
  else if lvlString = "error" ∨ lvlString = "eror" ∨ lvlString = "crit" then
    (Level.Error, none)
  else
    (Level.Debug, some ("Unknown level: " ++ lvlString))

/-- The level names `LvlFromString` recognises. -/
def knownLevels : List String :=
  ["debug", "dbug", "info", "warn", "error", "eror", "crit"]

/-! ## Values, fields and engine entries -/

/-- A Go value of type `interface{}` as the facade receives it. `field key val` is a boxed
`zapcore.Field` with that key and payload. -/
inductive Val where
  | nil
  | bool (b : Bool)
  | int (n : Int)
  | str (s : String)
  | field (key : String) (val : Val)
  deriving DecidableEq, Repr

/-- The `invalidPair` struct of `logger.go`. -/
structure invalidPair where
  position : Nat
  key : Val
  value : Val
  deriving DecidableEq, Repr

/-- The `invalidPairs` slice type of `logger.go`. -/
abbrev invalidPairs := List invalidPair

/-- A `zapcore.Field`: built by `zap.Any(key, val)` or by `zap.Array(key, invalid)`. -/
inductive Field where
  | any (key : String) (val : Val)
  | array (key : String) (arr : invalidPairs)
  deriving DecidableEq, Repr

instance : Inhabited Field := ⟨Field.any "" Val.nil⟩

/-- `Any` of `logger.go`, a wrapper of `zap.Any`. -/
def Any (key : String) (val : Val) : Field := Field.any key val

/-- The type assertion `args[i].(Field)`. -/
def Val.asField : Val → Option Field
  | .field key val => some (Field.any key val)
  | _ => none

/-- The type assertion `key.(string)`. -/
def Val.asString : Val → Option String
  | .str s => some s
  | _ => none

/-- One call on a `*zap.Logger`: the level of the method called, the message, the fields. -/
structure Entry where
  Level : Level
  Message : String
  Fields : List Field
  deriving DecidableEq, Repr

/-! ## `ParseFields` -/

/-- The local variables of the `ParseFields` loop, and the entries it has handed to
`DefaultLog` so far. -/
structure ParseState where
  fields : List Field
  invalid : invalidPairs
  logged : List Entry
  deriving DecidableEq, Repr

/-- The call `DefaultLog.DPanic("Ignored key without a value", zap.Any("ignored", key))`. -/
def ignoredKeyEntry (key : Val) : Entry :=
  ⟨Level.DPanic, "Ignored key without a value", [Field.any "ignored" key]⟩

/-- The call
`DefaultLog.DPanic("Ignored key-value pairs with non-string keys", zap.Array("invalid", invalid))`. -/
def invalidPairsEntry (invalid : invalidPairs) : Entry :=
  ⟨Level.DPanic, "Ignored key-value pairs with non-string keys", [Field.array "invalid" invalid]⟩

/-- The loop `for i := 0; i < len(args); { ... }` of `ParseFields`, started at index `i`.
The first argument bounds the number of iterations; every iteration advances `i`, so
`len(args)` iterations are always enough (`ParseFields_loop_eq`). -/
def ParseFields.loop (args : List Val) : Nat → Nat → ParseState → ParseState
  | 0, _, st => st
  | fuel + 1, i, st =>
    if i < args.length then
      match (args.getD i Val.nil).asField with
      | some f => ParseFields.loop args fuel (i + 1) { st with fields := st.fields ++ [f] }
      | none =>
        if i = args.length - 1 then
          { st with logged := st.logged ++ [ignoredKeyEntry (args.getD i Val.nil)] }
        else
          let key := args.getD i Val.nil
          let val := args.getD (i + 1) Val.nil
          match key.asString with
          | none =>
            ParseFields.loop args fuel (i + 2) { st with invalid := st.invalid ++ [⟨i, key, val⟩] }
          | some keyStr =>
            ParseFields.loop args fuel (i + 2) { st with fields := st.fields ++ [Any keyStr val] }
    else st

/-- What a call of `ParseFields` produces: the slice it returns and the entries it hands to
`DefaultLog`, in call order. -/
structure ParseResult where
  fields : List Field
  logged : List Entry
  deriving DecidableEq, Repr

/-- `ParseFields` of `logger.go`. Go's `nil` slice and the empty slice are both `[]`; the
capacity reserved for `invalid` on its first use does not show in the result. -/
def ParseFields (args : List Val) : ParseResult :=
  if args.length = 0 then
    ⟨[], []⟩
  else
    let st := ParseFields.loop args args.length 0 ⟨[], [], []⟩
    if st.invalid.length > 0 then
      ⟨st.fields, st.logged ++ [invalidPairsEntry st.invalid]⟩
    else
      ⟨st.fields, st.logged⟩

/-! ### The scan, step by step -/

/-- One step of the left-to-right scan over the arguments. -/
inductive ScanItem where
  | typed (f : Field)
  | pair (position : Nat) (key : Val) (val : Val)
  | dangling (position : Nat) (key : Val)
  deriving DecidableEq, Repr

/-- The steps of the scan over `rest`, whose first element has index `i` in the whole
argument list: a typed field takes one element, a key and its value take two, and a last
element that is not a typed field is a dangling key. -/
def scan (i : Nat) : List Val → List ScanItem
  | [] => []
  | [a] =>
    match a.asField with
    | some f => [ScanItem.typed f]
    | none => [ScanItem.dangling i a]
  | a :: v :: rest =>
    match a.asField with
    | some f => ScanItem.typed f :: scan (i + 1) (v :: rest)
    | none => ScanItem.pair i a v :: scan (i + 2) rest

/-- The field a scan step appends to the result, if any. -/
def ScanItem.toField : ScanItem → Option Field
  | .typed f => some f
  | .pair _ key val =>
    match key.asString with
    | some keyStr => some (Any keyStr val)
    | none => none
  | .dangling _ _ => none

/-- The invalid pair a scan step records, if any. -/
def ScanItem.toInvalid : ScanItem → Option invalidPair
  | .pair position key val =>
    match key.asString with
    | some _ => none
    | none => some ⟨position, key, val⟩
  | _ => none

/-- The dangling key a scan step meets, if any. -/
def ScanItem.toDangling : ScanItem → Option Val
  | .dangling _ key => some key
  | _ => none

/-- The scan ends exactly at the end of the arguments: it meets no dangling key. -/
def ScanComplete (args : List Val) : Prop :=
  ∀ item ∈ scan 0 args, item.toDangling = none

instance (args : List Val) : Decidable (ScanComplete args) := by
  unfold ScanComplete; infer_instance

/-- A well-formed argument: a typed field, or a string key with its value. -/
inductive Item where
  | typed (key : String) (val : Val)
  | kv (key : String) (val : Val)
  deriving DecidableEq, Repr

/-- The arguments an item stands for. -/
def Item.args : Item → List Val
  | .typed key val => [Val.field key val]
  | .kv key val => [Val.str key, val]

/-- The field an item denotes: the typed field itself, or `Any(k, v)` for a pair. -/
def Item.toField : Item → Field
  | .typed key val => Field.any key val
  | .kv key val => Any key val

/-- The argument list a sequence of items stands for. -/
def Item.flatten (items : List Item) : List Val :=
  items.flatMap Item.args

/-! ## Slices and their backing arrays -/

/-- The backing arrays allocated so far; the address of an array is its index. -/
abbrev Heap := List (List Field)

/-- A Go slice header over `[]Field`: backing array, offset into it, length, capacity. -/
structure Slice where
  arr : Nat
  off : Nat
  len : Nat
  cap : Nat
  deriving DecidableEq, Repr

/-- Go's `nil` slice. -/
def Slice.nil : Slice := ⟨0, 0, 0, 0⟩

/-- The elements of a slice. -/
def Slice.read (h : Heap) (s : Slice) : List Field :=
  ((h.getD s.arr []).drop s.off).take s.len

/-- The slice expression `s[n:]`. -/
def Slice.drop (s : Slice) (n : Nat) : Slice :=
  ⟨s.arr, s.off + n, s.len - n, s.cap - n⟩

/-- The slice lies inside an allocated backing array (a slice of length 0 always does). -/
def Slice.Valid (h : Heap) (s : Slice) : Prop :=
  s.len = 0 ∨ (s.arr < h.length ∧ s.off + s.len ≤ (h.getD s.arr []).length)

instance (h : Heap) (s : Slice) : Decidable (s.Valid h) := by
  unfold Slice.Valid; infer_instance

/-- Go's `make([]Field, len)`: a fresh zeroed backing array. -/
def make (h : Heap) (len : Nat) : Heap × Slice :=
  (h ++ [List.replicate len default], ⟨h.length, 0, len, len⟩)

/-- Go's `copy(dst, src)`: writes the first `min(len(dst), len(src))` elements of `src`
into the backing array of `dst` and returns their number. -/
def copy (h : Heap) (dst src : Slice) : Heap × Nat :=
  let n := min dst.len src.len
  let data := (src.read h).take n
  let a := h.getD dst.arr []
  (h.set dst.arr (a.take dst.off ++ data ++ a.drop (dst.off + data.length)), n)

/-- `AppendFields` of `logger.go`. -/
def AppendFields (h : Heap) (pfx sfx : Slice) : Heap × Slice :=
  let (h1, newFields) := make h (pfx.len + sfx.len)
  let (h2, n) := copy h1 newFields pfx
  let (h3, _) := copy h2 (newFields.drop n) sfx
  (h3, newFields)

/-! ## The shared engine and the facade -/

/-- The settings of a `lumberjack.Logger`, the rotating file sink. -/
structure Hook where
  Filename : String
  MaxSize : Nat
  MaxBackups : Nat
  MaxAge : Nat
  LocalTime : Bool
  Compress : Bool
  deriving DecidableEq, Repr

/-- A `zapcore.WriteSyncer` the facade builds: `os.Stdout` or a rotating file. -/
inductive Sink where
  | stdout
  | file (hook : Hook)
  deriving DecidableEq, Repr

/-- A `*zap.Logger` as `zap.New(zapcore.NewCore(encoder, syncers, atomicLevel))` builds it:
the level of its one `AtomicLevel` and the sinks behind it. The encoder is always the JSON
encoder over `SetLc()`. -/
structure Core where
  level : Level
  sinks : List Sink
  deriving DecidableEq, Repr

/-- The state of the process: the backing arrays, the `*zap.Logger` values allocated so far
(the address of one is its index), the package variable `DefaultLog`, and every call made on
a `*zap.Logger` so far, with the address of its receiver. -/
structure World where
  heap : Heap
  engines : List Core
  DefaultLog : Nat
  trace : List (Nat × Entry)
  deriving DecidableEq, Repr

/-- The state after `init` of package `log15`: a console engine at `LvlFromString("debug")`. -/
def World.init : World :=
  ⟨[], [⟨(LvlFromString "debug").1, [Sink.stdout]⟩], 0, []⟩

/-- The engine `DefaultLog` points to. -/
def World.engine (w : World) : Option Core := w.engines.get? w.DefaultLog

/-- `zap.New(core)`: allocates a new `*zap.Logger`. -/
def World.zapNew (w : World) (core : Core) : World × Nat :=
  ({ w with engines := w.engines ++ [core] }, w.engines.length)

/-- A call `logger.Debug(msg, fields...)`, `.Info`, `.Warn`, `.Error` or `.DPanic` on the
`*zap.Logger` at address `logger`. The call is recorded; whether the engine writes the entry
to its sinks is decided by the engine from its level. -/
def World.call (w : World) (logger : Nat) (lvl : Level) (msg : String) (fields : List Field) :
    World :=
  { w with trace := w.trace ++ [(logger, ⟨lvl, msg, fields⟩)] }

/-- `ParseFields` run in a state: its entries go to `DefaultLog`; the slice it returns is `nil`
for no arguments, and otherwise lies over the backing array of `make([]Field, 0, len(args))`,
into which the loop appended the fields (never more than `len(args)`). -/
def World.ParseFields (w : World) (args : List Val) : World × Slice :=
  let r := Log15.ParseFields args
  let w1 := { w with trace := w.trace ++ r.logged.map (fun e => (w.DefaultLog, e)) }
  if args.length = 0 then
    (w1, Slice.nil)
  else
    ({ w1 with heap := w1.heap ++ [r.fields ++ List.replicate (args.length - r.fields.length) default] },
      ⟨w1.heap.length, 0, r.fields.length, args.length⟩)

/-- The facade `ZapLogger`. -/
structure ZapLogger where
  _log : Nat
  fields : Slice
  deriving DecidableEq, Repr

/-- `New` of `logger.go`. -/
def New (w : World) (ctx : List Val) : World × ZapLogger :=
  let (w1, parsed) := w.ParseFields ctx
  (w1, ⟨w1.DefaultLog, parsed⟩)

/-- The method `(l ZapLogger) New`. -/
def ZapLogger.New (l : ZapLogger) (w : World) (ctx : List Val) : World × ZapLogger :=
  let (w1, parsed) := w.ParseFields ctx
  let (h2, fields) := AppendFields w1.heap l.fields parsed
  ({ w1 with heap := h2 }, ⟨w1.DefaultLog, fields⟩)

/-- The method `(l ZapLogger) Debug`. -/
def ZapLogger.Debug (l : ZapLogger) (w : World) (msg : String) (ctx : List Val) : World :=
  let (w1, parsed) := w.ParseFields ctx
  let (h2, fields) := AppendFields w1.heap l.fields parsed
  World.call { w1 with heap := h2 } w1.DefaultLog Level.Debug msg (fields.read h2)

/-- The method `(l ZapLogger) Info`. -/
def ZapLogger.Info (l : ZapLogger) (w : World) (msg : String) (ctx : List Val) : World :=
  let (w1, parsed) := w.ParseFields ctx
  let (h2, fields) := AppendFields w1.heap l.fields parsed
  World.call { w1 with heap := h2 } w1.DefaultLog Level.Info msg (fields.read h2)

/-- The method `(l ZapLogger) Warn`. -/
def ZapLogger.Warn (l : ZapLogger) (w : World) (msg : String) (ctx : List Val) : World :=
  let (w1, parsed) := w.ParseFields ctx
  let (h2, fields) := AppendFields w1.heap l.fields parsed
  World.call { w1 with heap := h2 } w1.DefaultLog Level.Warn msg (fields.read h2)

/-- The method `(l ZapLogger) Error`. -/
def ZapLogger.Error (l : ZapLogger) (w : World) (msg : String) (ctx : List Val) : World :=
  let (w1, parsed) := w.ParseFields ctx
  let (h2, fields) := AppendFields w1.heap l.fields parsed
  World.call { w1 with heap := h2 } w1.DefaultLog Level.Error msg (fields.read h2)

/-- The method `(l ZapLogger) Crit`: it calls `DefaultLog.Error`. -/
def ZapLogger.Crit (l : ZapLogger) (w : World) (msg : String) (ctx : List Val) : World :=
  let (w1, parsed) := w.ParseFields ctx
  let (h2, fields) := AppendFields w1.heap l.fields parsed
  World.call { w1 with heap := h2 } w1.DefaultLog Level.Error msg (fields.read h2)

end Log15

/-! ## Package `log`: the sink configurator (`log.go`) -/

namespace Types

/-- The settings struct `types.Log`, with the fields `log.go` reads. -/
structure Log where
  Loglevel : String
  LogConsoleLevel : String
  LogFile : String
  MaxFileSize : Nat
  MaxBackups : Nat
  MaxAge : Nat
  LocalTime : Bool
  Compress : Bool
  deriving DecidableEq, Repr

end Types

namespace Log

open Log15

/-- `SetLogLevel` of `log.go`. Its body is commented out in the source: it does nothing. -/
def SetLogLevel (w : World) (_logLevel : String) : World := w

/-- `fillDefaultValue` of `log.go`, as the settings after the call. -/
def fillDefaultValue (log : Types.Log) : Types.Log :=
  let log := if log.Loglevel = "" then { log with Loglevel := Level.Error.String } else log
  if log.LogConsoleLevel = "" then { log with LogConsoleLevel := Level.Error.String } else log

/-- `resetLog` of `log.go`: the state and the settings after the call. -/
def resetLog (w : World) (log : Types.Log) : World × Types.Log :=
  let log := fillDefaultValue log
  let hook : Hook :=
    { Filename := log.LogFile
      MaxSize := log.MaxFileSize
      MaxBackups := log.MaxBackups
      MaxAge := log.MaxAge
      LocalTime := log.LocalTime
      Compress := log.Compress }
  let (lvl, err) := LvlFromString log.Loglevel
  let lvl := if err ≠ none then Level.Error else lvl
  let core : Core := ⟨lvl, [Sink.stdout, Sink.file hook]⟩
  let (w1, logger) := w.zapNew core
  ({ w1 with DefaultLog := logger }, log)

/-- `SetFileLog` of `log.go`: the state after the call and the settings the function
worked on (for a `nil` argument, the struct it built itself). -/
def SetFileLog (w : World) (log : Option Types.Log) : World × Types.Log :=
  let log : Types.Log :=
    match log with
    | none => ⟨"", "", "logs/chain33.log", 0, 0, 0, false, false⟩
    | some log => log
  if log.LogFile = "" then
    (SetLogLevel w log.LogConsoleLevel, log)
  else
    resetLog w log

end Log

/-! ## Sample runs -/

namespace Sample

open Log15

/-- The run `base := New("svc", "auth")` from the initial state: the state after it and
the facade. -/
def base : World × ZapLogger :=
  New World.init [Val.str "svc", Val.str "auth"]

/-- The run `child := base.New("req_id", "abc")` after `base` was built. -/
def child : World × ZapLogger :=
  base.2.New base.1 [Val.str "req_id", Val.str "abc"]

/-- Settings with a log file and no level. -/
def fileSettings : Types.Log :=
  ⟨"", "", "logs/chain33.log", 100, 3, 7, false, true⟩

/-- Settings with no log file and the console level "error". -/
def consoleSettings : Types.Log :=
  ⟨"", "error", "", 0, 0, 0, false, false⟩

end Sample

/-! ## Properties -/

namespace Log15

/-- Outside the seven names `LvlFromString` takes its `default` branch. -/
theorem LvlFromString_of_not_mem (s : String) (hs : s ∉ knownLevels) :
    LvlFromString s = (Level.Debug, some ("Unknown level: " ++ s)) := by
  simp only [knownLevels, List.mem_cons, List.mem_singleton, List.not_mem_nil, or_false,
    not_or] at hs
  obtain ⟨h1, h2, h3, h4, h5, h6, h7⟩ := hs
  simp [LvlFromString, h1, h2, h3, h4, h5, h6, h7]

/-- On the seven names `LvlFromString` returns a nil error. -/
theorem LvlFromString_of_mem (s : String) (hs : s ∈ knownLevels) :
    (LvlFromString s).2 = none := by
  simp only [knownLevels, List.mem_cons, List.mem_singleton, List.not_mem_nil, or_false] at hs
  rcases hs with h | h | h | h | h | h | h <;> subst h <;> decide

/-- The error of `LvlFromString` is non-nil exactly outside the seven names. -/
theorem LvlFromString_err_iff (s : String) :
    (LvlFromString s).2 ≠ none ↔ s ∉ knownLevels := by
  constructor
  · intro herr hmem
    exact herr (LvlFromString_of_mem s hmem)
  · intro hs
    rw [LvlFromString_of_not_mem s hs]
    simp


/-- The scan of no arguments has no step. -/
theorem scan_nil (i : Nat) : scan i [] = [] := rfl

/-- A typed field is one step of the scan and takes one argument. -/
theorem scan_typed (i : Nat) (a : Val) (rest : List Val) (f : Field) (h : a.asField = some f) :
    scan i (a :: rest) = ScanItem.typed f :: scan (i + 1) rest := by
  cases rest <;> simp [scan, h]

/-- A last argument that is not a typed field is a dangling key. -/
theorem scan_dangling (i : Nat) (a : Val) (h : a.asField = none) :
    scan i [a] = [ScanItem.dangling i a] := by
  simp [scan, h]

/-- A key that is not a typed field takes the next argument as its value. -/
theorem scan_pair (i : Nat) (a v : Val) (rest : List Val) (h : a.asField = none) :
    scan i (a :: v :: rest) = ScanItem.pair i a v :: scan (i + 2) rest := by
  simp [scan, h]

/-- The loop of `ParseFields`, started at index `i` with enough iterations left, adds to its
state what the scan of `args[i:]` yields: the fields, the invalid pairs and one entry per
dangling key. With `len(args) - i` iterations it never stops early. -/
theorem ParseFields_loop_eq (args : List Val) :
    ∀ (fuel i : Nat) (st : ParseState), i ≤ args.length → args.length - i ≤ fuel →
      ParseFields.loop args fuel i st =
        ⟨st.fields ++ (scan i (args.drop i)).filterMap ScanItem.toField,
         st.invalid ++ (scan i (args.drop i)).filterMap ScanItem.toInvalid,
         st.logged ++ ((scan i (args.drop i)).filterMap ScanItem.toDangling).map ignoredKeyEntry⟩ := by
  intro fuel
  induction fuel with
  | zero =>
    intro i st hi hfuel
    have : i = args.length := by omega
    subst this
    simp [ParseFields.loop, scan_nil]
  | succ fuel ih =>
    intro i st hi hfuel
    by_cases hlt : i < args.length
    · have hdrop : args.drop i = args[i] :: args.drop (i + 1) := List.drop_eq_getElem_cons hlt
      have hget : args.getD i Val.nil = args[i] := by simp [List.getD_eq_getElem, hlt]
      rw [ParseFields.loop, if_pos hlt, hget, hdrop]
      cases hf : (args[i]).asField with
      | some f =>
        simp only []
        rw [ih (i + 1) _ (by omega) (by omega), scan_typed i _ _ f hf]
        simp [ScanItem.toField, ScanItem.toInvalid, ScanItem.toDangling]
      | none =>
        simp only []
        by_cases hlast : i = args.length - 1
        · have hnil : args.drop (i + 1) = [] := by
            apply List.drop_eq_nil_of_le; omega
          rw [if_pos hlast, hnil, scan_dangling i _ hf]
          simp [ScanItem.toField, ScanItem.toInvalid, ScanItem.toDangling]
        · have hlt2 : i + 1 < args.length := by omega
          have hdrop2 : args.drop (i + 1) = args[i + 1] :: args.drop (i + 2) :=
            List.drop_eq_getElem_cons hlt2
          have hget2 : args.getD (i + 1) Val.nil = args[i + 1] := by
            simp [List.getD_eq_getElem, hlt2]
          rw [if_neg hlast, hdrop2, scan_pair i _ _ _ hf, hget2]
          cases hs : (args[i]).asString with
          | none =>
            simp only []
            rw [ih (i + 2) _ (by omega) (by omega)]
            simp [ScanItem.toField, ScanItem.toInvalid, ScanItem.toDangling, hs]
          | some keyStr =>
            simp only []
            rw [ih (i + 2) _ (by omega) (by omega)]
            simp [ScanItem.toField, ScanItem.toInvalid, ScanItem.toDangling, hs]
    · have : i = args.length := by omega
      subst this
      simp [ParseFields.loop, scan_nil]


/-- `ParseFields` in terms of the scan: the fields of the steps in order, one entry per
dangling key, then one entry for all the invalid pairs if there are any. -/
theorem ParseFields_eq_scan (args : List Val) :
    ParseFields args =
      ⟨(scan 0 args).filterMap ScanItem.toField,
       ((scan 0 args).filterMap ScanItem.toDangling).map ignoredKeyEntry ++
         (if (scan 0 args).filterMap ScanItem.toInvalid = [] then []
          else [invalidPairsEntry ((scan 0 args).filterMap ScanItem.toInvalid)])⟩ := by
  unfold ParseFields
  by_cases h0 : args.length = 0
  · have : args = [] := List.length_eq_zero.mp h0
    subst this
    simp [scan_nil]
  · rw [if_neg h0, ParseFields_loop_eq args args.length 0 _ (Nat.zero_le _) (by omega)]
    simp only [List.drop_zero, List.nil_append]
    by_cases hinv : (scan 0 args).filterMap ScanItem.toInvalid = []
    · simp [hinv]
    · have hpos : ((scan 0 args).filterMap ScanItem.toInvalid).length > 0 :=
        List.length_pos.mpr hinv
      simp [hinv, hpos]

/-- The scan of well-formed arguments yields the fields of the items, no invalid pair and
no dangling key. -/
theorem scan_flatten (items : List Item) :
    ∀ i : Nat,
      (scan i (Item.flatten items)).filterMap ScanItem.toField = items.map Item.toField ∧
      (scan i (Item.flatten items)).filterMap ScanItem.toInvalid = [] ∧
      (scan i (Item.flatten items)).filterMap ScanItem.toDangling = [] := by
  induction items with
  | nil => intro i; simp [Item.flatten, scan_nil]
  | cons item items ih =>
    intro i
    have hfl : Item.flatten (item :: items) = item.args ++ Item.flatten items := by
      simp [Item.flatten]
    rw [hfl]
    cases item with
    | typed key val =>
      have := ih (i + 1)
      simp only [Item.args, List.singleton_append]
      rw [scan_typed i (Val.field key val) _ (Field.any key val) rfl]
      simp [ScanItem.toField, ScanItem.toInvalid, ScanItem.toDangling, Item.toField, this]
    | kv key val =>
      have := ih (i + 2)
      simp only [Item.args, List.cons_append, List.nil_append]
      rw [scan_pair i (Val.str key) val _ rfl]
      simp [ScanItem.toField, ScanItem.toInvalid, ScanItem.toDangling, Item.toField,
        Val.asString, this]

/-- The positions the scan records are indices into the whole argument list: a pair at
position `i` is `args[i]` with `args[i+1]`, and a dangling key is the last argument. -/
theorem scan_position (args : List Val) :
    ∀ (n : Nat) (pre rest : List Val), rest.length = n → args = pre ++ rest →
      ∀ item ∈ scan pre.length rest,
        match item with
        | .typed _ => True
        | .pair position key val =>
            args[position]? = some key ∧ args[position + 1]? = some val
        | .dangling position key =>
            args[position]? = some key ∧ position + 1 = args.length := by
  intro n
  induction n using Nat.strong_induction_on with
  | _ n ih =>
    intro pre rest hn hargs item hmem
    match rest, hn, hargs, hmem with
    | [], _, _, hmem => simp [scan_nil] at hmem
    | [a], hn, hargs, hmem =>
      cases hf : a.asField with
      | some f =>
        rw [scan_typed _ _ _ f hf, scan_nil] at hmem
        simp at hmem; subst hmem; trivial
      | none =>
        rw [scan_dangling _ _ hf] at hmem
        simp at hmem; subst hmem
        subst hargs
        constructor
        · rw [List.getElem?_append_right (Nat.le_refl _)]; simp
        · simp
    | a :: v :: rest, hn, hargs, hmem =>
      cases hf : a.asField with
      | some f =>
        rw [scan_typed _ _ _ f hf] at hmem
        rcases List.mem_cons.mp hmem with h | h
        · subst h; trivial
        · have := ih (v :: rest).length (by simp at hn ⊢; omega) (pre ++ [a]) (v :: rest) rfl
            (by simp [hargs]) item (by simpa using h)
          exact this
      | none =>
        rw [scan_pair _ _ _ _ hf] at hmem
        rcases List.mem_cons.mp hmem with h | h
        · subst h
          subst hargs
          constructor
          · rw [List.getElem?_append_right (Nat.le_refl _)]; simp
          · rw [List.getElem?_append_right (by omega)]; simp
        · have := ih rest.length (by simp at hn ⊢; omega) (pre ++ [a, v]) rest rfl
            (by simp [hargs]) item (by simpa using h)
          exact this

/-- Appending a value that is not a typed field to completely scanned arguments adds one
step to the scan: a dangling key. -/
theorem scan_append_dangling (k : Val) (hk : k.asField = none) :
    ∀ (n : Nat) (xs : List Val) (i : Nat), xs.length = n →
      (∀ item ∈ scan i xs, item.toDangling = none) →
      scan i (xs ++ [k]) = scan i xs ++ [ScanItem.dangling (i + xs.length) k] := by
  intro n
  induction n using Nat.strong_induction_on with
  | _ n ih =>
    intro xs i hn hc
    match xs, hn, hc with
    | [], _, _ => simp [scan_nil, scan_dangling _ _ hk]
    | [a], hn, hc =>
      cases hf : a.asField with
      | some f =>
        simp only [List.singleton_append]
        rw [scan_typed _ _ _ f hf, scan_typed _ _ _ f hf, scan_nil, scan_dangling _ _ hk]
        simp
      | none =>
        rw [scan_dangling _ _ hf] at hc
        simp [ScanItem.toDangling] at hc
    | a :: v :: rest, hn, hc =>
      cases hf : a.asField with
      | some f =>
        rw [scan_typed _ _ _ f hf] at hc
        simp only [List.cons_append]
        rw [scan_typed _ _ _ f hf, scan_typed _ _ _ f hf]
        have := ih (v :: rest).length (by simp at hn ⊢; omega) (v :: rest) (i + 1) rfl
          (fun item hm => hc item (List.mem_cons_of_mem _ hm))
        simp only [List.cons_append] at this
        rw [this]
        simp; omega
      | none =>
        rw [scan_pair _ _ _ _ hf] at hc
        simp only [List.cons_append]
        rw [scan_pair _ _ _ _ hf, scan_pair _ _ _ _ hf]
        have := ih rest.length (by simp at hn ⊢; omega) rest (i + 2) rfl
          (fun item hm => hc item (List.mem_cons_of_mem _ hm))
        rw [this]
        simp; omega


/-- A slice inside the heap has as many elements as its length. -/
theorem Slice.read_length (h : Heap) (s : Slice) (hs : s.Valid h) :
    (s.read h).length = s.len := by
  unfold Slice.read
  rcases hs with h0 | ⟨_, hle⟩
  · simp [h0]
  · simp only [List.length_take, List.length_drop]; omega

/-- Allocating further arrays does not change what a slice inside the heap reads. -/
theorem Slice.read_of_prefix (h h' : Heap) (s : Slice) (hs : s.Valid h) (hpre : h <+: h') :
    s.read h' = s.read h := by
  unfold Slice.read
  rcases hs with h0 | ⟨hlt, _⟩
  · simp [h0]
  · obtain ⟨t, rfl⟩ := hpre
    have : (h ++ t).getD s.arr [] = h.getD s.arr [] := by
      simp [List.getD_eq_getElem?_getD, List.getElem?_append_left hlt]
    rw [this]

/-- A slice inside the heap stays inside it when further arrays are allocated. -/
theorem Slice.valid_of_prefix (h h' : Heap) (s : Slice) (hs : s.Valid h) (hpre : h <+: h') :
    s.Valid h' := by
  rcases hs with h0 | ⟨hlt, hle⟩
  · exact Or.inl h0
  · obtain ⟨t, rfl⟩ := hpre
    have : (h ++ t).getD s.arr [] = h.getD s.arr [] := by
      simp [List.getD_eq_getElem?_getD, List.getElem?_append_left hlt]
    refine Or.inr ⟨?_, ?_⟩
    · simp; omega
    · rw [this]; exact hle

/-- `copy` into a slice over the array allocated last changes that array only. -/
theorem copy_fresh (h : Heap) (a : List Field) (dst src : Slice) (hdst : dst.arr = h.length) :
    copy (h ++ [a]) dst src =
      (h ++ [a.take dst.off ++ (src.read (h ++ [a])).take (min dst.len src.len) ++
          a.drop (dst.off + ((src.read (h ++ [a])).take (min dst.len src.len)).length)],
        min dst.len src.len) := by
  unfold copy
  simp [hdst, List.getD_eq_getElem?_getD]

/-- `AppendFields` allocates one array of `len(prefix) + len(suffix)` elements, leaves all
other arrays alone and returns the slice over the new one; for slices inside the heap the
new array is the elements of the first followed by those of the second. -/
theorem AppendFields_fresh (h : Heap) (pfx sfx : Slice) :
    ∃ arr : List Field,
      AppendFields h pfx sfx =
        (h ++ [arr], ⟨h.length, 0, pfx.len + sfx.len, pfx.len + sfx.len⟩) ∧
      arr.length = pfx.len + sfx.len ∧
      (pfx.Valid h → sfx.Valid h → arr = pfx.read h ++ sfx.read h) := by
  unfold AppendFields make
  simp only []
  rw [copy_fresh h _ _ pfx rfl]
  simp only []
  rw [copy_fresh h _ _ sfx rfl]
  refine ⟨_, rfl, ?_, ?_⟩
  · simp only [Slice.drop, List.length_append, List.length_take, List.length_drop,
      List.length_replicate, List.take_zero, List.length_nil]
    omega
  · intro hp hs
    have hpre : ∀ a : List Field, h <+: h ++ [a] := fun a => List.prefix_append h [a]
    have hP := Slice.read_length h pfx hp
    have hS := Slice.read_length h sfx hs
    simp only [Slice.drop, Slice.read_of_prefix h _ pfx hp (hpre _),
      Slice.read_of_prefix h _ sfx hs (hpre _)]
    simp [hP, hS, List.take_of_length_le, List.drop_of_length_le]


/-- `ParseFields` run in a state: `DefaultLog` and the engines are kept, the entries go to
`DefaultLog`, the heap only grows, and the slice returned holds the fields. -/
theorem World_ParseFields_spec (w : World) (args : List Val) :
    (w.ParseFields args).1.DefaultLog = w.DefaultLog ∧
    (w.ParseFields args).1.engines = w.engines ∧
    (w.ParseFields args).1.trace =
      w.trace ++ (ParseFields args).logged.map (fun e => (w.DefaultLog, e)) ∧
    w.heap <+: (w.ParseFields args).1.heap ∧
    (w.ParseFields args).2.Valid (w.ParseFields args).1.heap ∧
    (w.ParseFields args).2.read (w.ParseFields args).1.heap = (ParseFields args).fields ∧
    (w.ParseFields args).2.len = (ParseFields args).fields.length := by
  unfold World.ParseFields
  by_cases h0 : args.length = 0
  · have : args = [] := List.length_eq_zero.mp h0
    subst this
    simp [ParseFields, Slice.nil, Slice.Valid, Slice.read]
  · simp only [if_neg h0]
    refine ⟨trivial, trivial, trivial, List.prefix_append _ _, ?_, ?_, trivial⟩
    · right
      simp [List.getD_eq_getElem?_getD]
    · simp [Slice.read, List.getD_eq_getElem?_getD]

/-- The common part of `(l ZapLogger) New` and of the five emission methods:
`AppendFields(l.fields, ParseFields(ctx))`. -/
theorem merge_spec (l : ZapLogger) (w : World) (ctx : List Val) :
    ∃ arr : List Field,
      AppendFields (w.ParseFields ctx).1.heap l.fields (w.ParseFields ctx).2 =
        ((w.ParseFields ctx).1.heap ++ [arr],
          ⟨(w.ParseFields ctx).1.heap.length, 0,
            l.fields.len + (ParseFields ctx).fields.length,
            l.fields.len + (ParseFields ctx).fields.length⟩) ∧
      arr.length = l.fields.len + (ParseFields ctx).fields.length ∧
      (l.fields.Valid w.heap → arr = l.fields.read w.heap ++ (ParseFields ctx).fields) := by
  obtain ⟨_, _, _, hpre, hval, hread, hlen⟩ := World_ParseFields_spec w ctx
  obtain ⟨arr, harr, harrlen, hvalid⟩ := AppendFields_fresh (w.ParseFields ctx).1.heap l.fields
    (w.ParseFields ctx).2
  refine ⟨arr, ?_, ?_, ?_⟩
  · rw [harr, hlen]
  · rw [harrlen, hlen]
  · intro hl
    rw [hvalid (Slice.valid_of_prefix _ _ _ hl hpre) hval, hread,
      Slice.read_of_prefix _ _ _ hl hpre]

/-- The slice over the whole of the array allocated last reads that array. -/
theorem Slice.read_fresh (h : Heap) (arr : List Field) (n c : Nat) (hn : arr.length = n) :
    (Slice.mk h.length 0 n c).read (h ++ [arr]) = arr := by
  simp [Slice.read, List.getD_eq_getElem?_getD, ← hn]


/-- C6: `LvlFromString` maps each of the seven level names to its severity with a nil error:
"debug" and "dbug" to Debug, "info" to Info, "warn" to Warn, and "error", "eror" and "crit"
to Error, so that "crit" and "error" give the same severity. -/
theorem LvlFromString_known :
    LvlFromString "debug" = (Level.Debug, none) ∧
    LvlFromString "dbug" = (Level.Debug, none) ∧
    LvlFromString "info" = (Level.Info, none) ∧
    LvlFromString "warn" = (Level.Warn, none) ∧
    LvlFromString "error" = (Level.Error, none) ∧
    LvlFromString "eror" = (Level.Error, none) ∧
    LvlFromString "crit" = (Level.Error, none) ∧
    (LvlFromString "crit").1 = (LvlFromString "error").1 := by
  decide

/-- C7: for every string that is not one of the seven level names (matching is
case-sensitive: "DEBUG" and "" are not among them), `LvlFromString` returns Debug together
with the error "Unknown level: <string>"; and its error is non-nil only for such strings. -/
theorem LvlFromString_unknown (s : String) :
    (s ∉ knownLevels → LvlFromString s = (Level.Debug, some ("Unknown level: " ++ s))) ∧
    ((LvlFromString s).2 ≠ none ↔ s ∉ knownLevels) ∧
    "DEBUG" ∉ knownLevels ∧ "" ∉ knownLevels :=
  ⟨LvlFromString_of_not_mem s, LvlFromString_err_iff s, by decide, by decide⟩

/-- An unknown level name at which C7 applies: "DEBUG". -/
theorem LvlFromString_unknown_witness :
    "DEBUG" ∉ knownLevels ∧
    LvlFromString "DEBUG" = (Level.Debug, some ("Unknown level: " ++ "DEBUG")) :=
  ⟨by decide, (LvlFromString_unknown "DEBUG").1 (by decide)⟩

/-- C1: on an argument list made up only of typed fields and of string-keyed pairs,
`ParseFields` returns one field per item in scan order, each typed field unchanged and each
pair `(k, v)` as `Any(k, v)`, and hands no entry to the engine; nothing is dropped, reordered
or deduplicated. `ParseFields([])` has length 0 and
`ParseFields([Field a, "k", 5]) = [Field a, Any("k", 5)]`. -/
theorem ParseFields_wellformed (items : List Item) :
    ParseFields (Item.flatten items) = ⟨items.map Item.toField, []⟩ ∧
    (ParseFields (Item.flatten items)).fields.length = items.length ∧
    (ParseFields []).fields.length = 0 ∧
    (∀ (key : String) (val : Val),
      ParseFields [Val.field key val, Val.str "k", Val.int 5] =
        ⟨[Field.any key val, Any "k" (Val.int 5)], []⟩) ∧
    ParseFields [Val.str "k", Val.int 1, Val.str "k", Val.int 2] =
      ⟨[Any "k" (Val.int 1), Any "k" (Val.int 2)], []⟩ := by
  have hmain : ParseFields (Item.flatten items) = ⟨items.map Item.toField, []⟩ := by
    obtain ⟨h1, h2, h3⟩ := scan_flatten items 0
    rw [ParseFields_eq_scan, h1, h2, h3]
    simp
  refine ⟨hmain, ?_, by decide, ?_, by decide⟩
  · rw [hmain]; simp
  · intro key val
    rfl

/-- C2: for every argument list, a pair met by the scan whose key is not a string
contributes no field and is recorded as (index of the key in the argument list, key, value).
The entries handed to the engine are the "Ignored key without a value" entries of the scan
followed, after the scan, by exactly one `DPanic` entry "Ignored key-value pairs with
non-string keys" whose field is `zap.Array("invalid", ...)` over all recorded pairs in scan
order if there is at least one, and by none otherwise. `ParseFields([42, "v", "k2", "v2"])`
returns only `k2:v2` and the entry lists position 0, key 42, value "v". -/
theorem ParseFields_invalid_pairs (args : List Val) :
    (ParseFields args).fields = (scan 0 args).filterMap ScanItem.toField ∧
    (∀ (i : Nat) (key val : Val), ScanItem.pair i key val ∈ scan 0 args →
      args[i]? = some key ∧ args[i + 1]? = some val) ∧
    (∀ (i : Nat) (key val : Val), key.asString = none →
      (ScanItem.pair i key val).toField = none ∧
      (ScanItem.pair i key val).toInvalid = some ⟨i, key, val⟩) ∧
    (∀ (i : Nat) (key val : Val), key.asString ≠ none →
      (ScanItem.pair i key val).toInvalid = none) ∧
    (ParseFields args).logged =
      ((scan 0 args).filterMap ScanItem.toDangling).map
          (fun k => (⟨Level.DPanic, "Ignored key without a value",
            [Field.any "ignored" k]⟩ : Entry)) ++
        (if (scan 0 args).filterMap ScanItem.toInvalid = [] then []
         else [(⟨Level.DPanic, "Ignored key-value pairs with non-string keys",
            [Field.array "invalid" ((scan 0 args).filterMap ScanItem.toInvalid)]⟩ : Entry)]) ∧
    (ParseFields args).logged.filter
        (fun e => e.Message = "Ignored key-value pairs with non-string keys") =
      (if (scan 0 args).filterMap ScanItem.toInvalid = [] then []
       else [(⟨Level.DPanic, "Ignored key-value pairs with non-string keys",
          [Field.array "invalid" ((scan 0 args).filterMap ScanItem.toInvalid)]⟩ : Entry)]) ∧
    (∀ (i : Nat) (key val : Val), ScanItem.pair i key val ∈ scan 0 args →
      key.asString = none →
      ∃ ps : invalidPairs,
        (ParseFields args).logged.getLast? =
          some ⟨Level.DPanic, "Ignored key-value pairs with non-string keys",
            [Field.array "invalid" ps]⟩ ∧
        (⟨i, key, val⟩ : invalidPair) ∈ ps ∧
        ∀ p ∈ ps, p.key.asString = none ∧ args[p.position]? = some p.key ∧
          args[p.position + 1]? = some p.value) ∧
    ParseFields [Val.int 42, Val.str "v", Val.str "k2", Val.str "v2"] =
      ⟨[Field.any "k2" (Val.str "v2")],
       [⟨Level.DPanic, "Ignored key-value pairs with non-string keys",
         [Field.array "invalid" [⟨0, Val.int 42, Val.str "v"⟩]]⟩]⟩ ∧
    (ParseFields [Val.bool true, Val.nil, Val.int 7, Val.int 8, Val.str "k"]).logged =
      [⟨Level.DPanic, "Ignored key without a value", [Field.any "ignored" (Val.str "k")]⟩,
       ⟨Level.DPanic, "Ignored key-value pairs with non-string keys",
         [Field.array "invalid"
           [⟨0, Val.bool true, Val.nil⟩, ⟨2, Val.int 7, Val.int 8⟩]]⟩] := by
  have hpos : ∀ (i : Nat) (key val : Val), ScanItem.pair i key val ∈ scan 0 args →
      args[i]? = some key ∧ args[i + 1]? = some val := by
    intro i key val hmem
    exact scan_position args args.length [] args rfl rfl _ hmem
  have hlogged : (ParseFields args).logged =
      ((scan 0 args).filterMap ScanItem.toDangling).map
          (fun k => (⟨Level.DPanic, "Ignored key without a value",
            [Field.any "ignored" k]⟩ : Entry)) ++
        (if (scan 0 args).filterMap ScanItem.toInvalid = [] then []
         else [(⟨Level.DPanic, "Ignored key-value pairs with non-string keys",
            [Field.array "invalid" ((scan 0 args).filterMap ScanItem.toInvalid)]⟩ : Entry)]) := by
    rw [ParseFields_eq_scan]
    rfl
  refine ⟨?_, hpos, ?_, ?_, hlogged, ?_, ?_, by decide, by decide⟩
  · rw [ParseFields_eq_scan]
  · intro i key val hk
    simp [ScanItem.toField, ScanItem.toInvalid, hk]
  · intro i key val hk
    cases hs : key.asString with
    | none => exact absurd hs hk
    | some s => simp [ScanItem.toInvalid, hs]
  · rw [hlogged]
    simp only [List.filter_append, List.filter_map]
    have hd : List.filter
        ((fun e => decide (e.Message = "Ignored key-value pairs with non-string keys")) ∘
          (fun k => (⟨Level.DPanic, "Ignored key without a value",
            [Field.any "ignored" k]⟩ : Entry)))
        ((scan 0 args).filterMap ScanItem.toDangling) = [] := by
      rw [List.filter_eq_nil_iff]
      intro a _
      simp
    rw [hd]
    by_cases hinv : (scan 0 args).filterMap ScanItem.toInvalid = []
    · simp [hinv]
    · simp [hinv]
  · intro i key val hmem hk
    have hin : (⟨i, key, val⟩ : invalidPair) ∈ (scan 0 args).filterMap ScanItem.toInvalid := by
      rw [List.mem_filterMap]
      exact ⟨_, hmem, by simp [ScanItem.toInvalid, hk]⟩
    have hne : (scan 0 args).filterMap ScanItem.toInvalid ≠ [] :=
      List.ne_nil_of_mem hin
    refine ⟨(scan 0 args).filterMap ScanItem.toInvalid, ?_, hin, ?_⟩
    · rw [hlogged, if_neg hne]
      simp
    · intro p hp
      rw [List.mem_filterMap] at hp
      obtain ⟨item, hitem, hinv⟩ := hp
      cases item with
      | typed f => simp [ScanItem.toInvalid] at hinv
      | dangling position k => simp [ScanItem.toInvalid] at hinv
      | pair position k v =>
        cases hs : k.asString with
        | some s => simp [ScanItem.toInvalid, hs] at hinv
        | none =>
          simp [ScanItem.toInvalid, hs] at hinv
          subst hinv
          exact ⟨hs, hpos position k v hitem⟩

/-- An argument list with a non-string key at which C2 applies. -/
theorem ParseFields_invalid_pairs_witness :
    ScanItem.pair 0 (Val.int 42) (Val.str "v") ∈
      scan 0 [Val.int 42, Val.str "v", Val.str "k2", Val.str "v2"] ∧
    [Val.int 42, Val.str "v", Val.str "k2", Val.str "v2"][0]? = some (Val.int 42) ∧
    [Val.int 42, Val.str "v", Val.str "k2", Val.str "v2"][0 + 1]? = some (Val.str "v") :=
  ⟨by decide,
   (ParseFields_invalid_pairs [Val.int 42, Val.str "v", Val.str "k2", Val.str "v2"]).2.1
     0 (Val.int 42) (Val.str "v") (by decide)⟩

/-- C3: if the scan of `xs` ends exactly at the end of `xs` and `k` is not a typed field,
then `ParseFields(xs ++ [k])` returns the fields of `ParseFields(xs)`: the dangling key is
dropped. The entries handed to the engine are one `DPanic` entry "Ignored key without a
value" whose field is `zap.Any("ignored", k)`, followed by the entries of `ParseFields(xs)`,
none of which has that message. `ParseFields(["k"])` has length 0 and hands over that one
entry, carrying "k". -/
theorem ParseFields_dangling_key (xs : List Val) (k : Val) (hxs : ScanComplete xs)
    (hk : k.asField = none) :
    (ParseFields (xs ++ [k])).fields = (ParseFields xs).fields ∧
    (ParseFields (xs ++ [k])).logged =
      (⟨Level.DPanic, "Ignored key without a value", [Field.any "ignored" k]⟩ : Entry) ::
        (ParseFields xs).logged ∧
    (∀ e ∈ (ParseFields xs).logged, e.Message ≠ "Ignored key without a value") ∧
    (ParseFields (xs ++ [k])).logged.filter
        (fun e => e.Message = "Ignored key without a value") =
      [⟨Level.DPanic, "Ignored key without a value", [Field.any "ignored" k]⟩] ∧
    (ParseFields [Val.str "k"]).fields.length = 0 ∧
    (ParseFields [Val.str "k"]).logged =
      [⟨Level.DPanic, "Ignored key without a value", [Field.any "ignored" (Val.str "k")]⟩] := by
  have hscan := scan_append_dangling k hk xs.length xs 0 rfl hxs
  have hnone : (scan 0 xs).filterMap ScanItem.toDangling = [] := by
    rw [List.filterMap_eq_nil_iff]
    exact hxs
  have hlogged : (ParseFields (xs ++ [k])).logged =
      (⟨Level.DPanic, "Ignored key without a value", [Field.any "ignored" k]⟩ : Entry) ::
        (ParseFields xs).logged := by
    rw [ParseFields_eq_scan, ParseFields_eq_scan, hscan]
    simp [ScanItem.toDangling, ScanItem.toInvalid, hnone, ignoredKeyEntry]
  have hrest : ∀ e ∈ (ParseFields xs).logged, e.Message ≠ "Ignored key without a value" := by
    intro e he
    rw [ParseFields_eq_scan] at he
    simp only [hnone, List.map_nil, List.nil_append] at he
    split at he
    · simp at he
    · simp at he
      subst he
      simp [invalidPairsEntry]
  refine ⟨?_, hlogged, hrest, ?_, by decide, by decide⟩
  · rw [ParseFields_eq_scan, ParseFields_eq_scan, hscan]
    simp [ScanItem.toField]
  · rw [hlogged, List.filter_cons]
    have : List.filter (fun e => decide (e.Message = "Ignored key without a value"))
        (ParseFields xs).logged = [] := by
      rw [List.filter_eq_nil_iff]
      intro e he
      simpa using hrest e he
    simp [this]

/-- A completely scanned argument list and a dangling key at which C3 applies. -/
theorem ParseFields_dangling_key_witness :
    ScanComplete [Val.int 42, Val.str "v", Val.str "k2", Val.str "v2"] ∧
    (Val.str "k").asField = none ∧
    (ParseFields ([Val.int 42, Val.str "v", Val.str "k2", Val.str "v2"] ++ [Val.str "k"])).logged =
      (⟨Level.DPanic, "Ignored key without a value", [Field.any "ignored" (Val.str "k")]⟩ :
          Entry) ::
        (ParseFields [Val.int 42, Val.str "v", Val.str "k2", Val.str "v2"]).logged :=
  ⟨by decide, rfl,
   (ParseFields_dangling_key [Val.int 42, Val.str "v", Val.str "k2", Val.str "v2"] (Val.str "k")
     (by decide) rfl).2.1⟩


/-- Every entry `ParseFields` hands to the engine is a `DPanic` call. -/
theorem ParseFields_logged_level (args : List Val) :
    ∀ e ∈ (ParseFields args).logged, e.Level = Level.DPanic := by
  intro e he
  rw [ParseFields_eq_scan] at he
  simp only [List.mem_append, List.mem_map] at he
  rcases he with ⟨k, _, rfl⟩ | he
  · rfl
  · split at he
    · simp at he
    · simp at he; subst he; rfl

/-- The state and the child after `(l ZapLogger) New`. -/
theorem ZapLogger_New_eq (p : ZapLogger) (w : World) (ctx : List Val) :
    ∃ arr : List Field,
      p.New w ctx =
        ({ (w.ParseFields ctx).1 with heap := (w.ParseFields ctx).1.heap ++ [arr] },
          ⟨w.DefaultLog,
            ⟨(w.ParseFields ctx).1.heap.length, 0,
              p.fields.len + (ParseFields ctx).fields.length,
              p.fields.len + (ParseFields ctx).fields.length⟩⟩) ∧
      (p.fields.Valid w.heap → arr = p.fields.read w.heap ++ (ParseFields ctx).fields) := by
  obtain ⟨arr, harr, _, hvalid⟩ := merge_spec p w ctx
  refine ⟨arr, ?_, hvalid⟩
  unfold ZapLogger.New
  simp only [harr, (World_ParseFields_spec w ctx).1]

/-- The state after an emission method that calls the engine at level `lvl`. -/
theorem emit_eq (l : ZapLogger) (w : World) (lvl : Level) (msg : String) (ctx : List Val) :
    ∃ arr : List Field,
      (match w.ParseFields ctx with
        | (w1, parsed) =>
          match AppendFields w1.heap l.fields parsed with
          | (h2, fields) =>
            World.call { w1 with heap := h2 } w1.DefaultLog lvl msg (fields.read h2)) =
        { heap := (w.ParseFields ctx).1.heap ++ [arr]
          engines := w.engines
          DefaultLog := w.DefaultLog
          trace := w.trace ++ (ParseFields ctx).logged.map (fun e => (w.DefaultLog, e)) ++
            [(w.DefaultLog, ⟨lvl, msg, arr⟩)] } ∧
      (l.fields.Valid w.heap → arr = l.fields.read w.heap ++ (ParseFields ctx).fields) := by
  obtain ⟨arr, harr, hlen, hvalid⟩ := merge_spec l w ctx
  obtain ⟨hd, he, ht, _, _, _, _⟩ := World_ParseFields_spec w ctx
  refine ⟨arr, ?_, hvalid⟩
  simp only [harr, World.call, hd, he, ht]
  rw [Slice.read_fresh _ arr _ _ hlen]


/-- An emission keeps the earlier calls, adds at least one, and all it adds are calls on
the engine `DefaultLog` points to at the call. -/
theorem emit_delivery (l : ZapLogger) (w : World) (lvl : Level) (msg : String)
    (ctx : List Val) :
    (match w.ParseFields ctx with
      | (w1, parsed) =>
        match AppendFields w1.heap l.fields parsed with
        | (h2, fields) =>
          World.call { w1 with heap := h2 } w1.DefaultLog lvl msg (fields.read h2)).trace.take
        w.trace.length = w.trace ∧
    w.trace.length <
      (match w.ParseFields ctx with
      | (w1, parsed) =>
        match AppendFields w1.heap l.fields parsed with
        | (h2, fields) =>
          World.call { w1 with heap := h2 } w1.DefaultLog lvl msg (fields.read h2)).trace.length ∧
    ∀ x ∈ (match w.ParseFields ctx with
      | (w1, parsed) =>
        match AppendFields w1.heap l.fields parsed with
        | (h2, fields) =>
          World.call { w1 with heap := h2 } w1.DefaultLog lvl msg (fields.read h2)).trace.drop
        w.trace.length, x.1 = w.DefaultLog := by
  obtain ⟨arr, heq, _⟩ := emit_eq l w lvl msg ctx
  rw [heq]
  simp only [List.append_assoc]
  refine ⟨?_, ?_, ?_⟩
  · simp
  · simp
  · intro x hx
    rw [List.drop_left] at hx
    simp only [List.mem_append, List.mem_map, List.mem_singleton] at hx
    rcases hx with ⟨e, _, rfl⟩ | rfl <;> rfl

/-- C4: for a facade `p` whose sticky fields lie in the heap and every argument list `ctx`,
the child `p.New(ctx)` carries `p`'s sticky fields followed by `ParseFields(ctx)` (its length
is the sum of both lengths) in a backing array allocated during the call, and `p`'s sticky
fields, like every slice that existed before the call, read the same afterwards. With
`base := New("svc", "auth")` and `child := base.New("req_id", "abc")`, `child` carries
`[svc=auth, req_id=abc]` and `base` still carries `[svc=auth]`. -/
theorem ZapLogger_New_fields (p : ZapLogger) (w : World) (ctx : List Val)
    (hp : p.fields.Valid w.heap) :
    (p.New w ctx).2.fields.read (p.New w ctx).1.heap =
      p.fields.read w.heap ++ (ParseFields ctx).fields ∧
    (p.New w ctx).2.fields.len = p.fields.len + (ParseFields ctx).fields.length ∧
    ((p.New w ctx).2.fields.read (p.New w ctx).1.heap).length =
      (p.fields.read w.heap).length + (ParseFields ctx).fields.length ∧
    w.heap.length ≤ (p.New w ctx).2.fields.arr ∧
    w.heap <+: (p.New w ctx).1.heap ∧
    p.fields.read (p.New w ctx).1.heap = p.fields.read w.heap ∧
    (∀ s : Slice, s.Valid w.heap → s.read (p.New w ctx).1.heap = s.read w.heap) ∧
    (p.New w ctx).2.fields.Valid (p.New w ctx).1.heap ∧
    Sample.child.2.fields.read Sample.child.1.heap =
      [Any "svc" (Val.str "auth"), Any "req_id" (Val.str "abc")] ∧
    Sample.base.2.fields.read Sample.child.1.heap = [Any "svc" (Val.str "auth")] ∧
    (Sample.child.2.Info Sample.child.1 "m" []).trace =
      [(0, ⟨Level.Info, "m", [Any "svc" (Val.str "auth"), Any "req_id" (Val.str "abc")]⟩)] ∧
    (Sample.base.2.Info (Sample.child.2.Info Sample.child.1 "m" []) "m" []).trace.drop 1 =
      [(0, ⟨Level.Info, "m", [Any "svc" (Val.str "auth")]⟩)] := by
  obtain ⟨arr, hnew, harr⟩ := ZapLogger_New_eq p w ctx
  obtain ⟨_, _, _, hpre, _, _, _⟩ := World_ParseFields_spec w ctx
  have harr := harr hp
  have hpre2 : w.heap <+: (w.ParseFields ctx).1.heap ++ [arr] :=
    hpre.trans (List.prefix_append _ _)
  have hlen : arr.length = p.fields.len + (ParseFields ctx).fields.length := by
    rw [harr, List.length_append, Slice.read_length _ _ hp]
  have hread : (p.New w ctx).2.fields.read (p.New w ctx).1.heap =
      p.fields.read w.heap ++ (ParseFields ctx).fields := by
    rw [hnew]
    simp only []
    rw [Slice.read_fresh _ arr _ _ hlen, harr]
  refine ⟨hread, ?_, ?_, ?_, ?_, ?_, ?_, ?_, by decide, by decide, by decide, by decide⟩
  · rw [hnew]
  · rw [hread, List.length_append]
  · rw [hnew]; exact hpre.length_le
  · rw [hnew]; exact hpre2
  · rw [hnew]; exact Slice.read_of_prefix _ _ _ hp hpre2
  · intro s hs
    rw [hnew]; exact Slice.read_of_prefix _ _ _ hs hpre2
  · rw [hnew]
    right
    simp [List.getD_eq_getElem?_getD, hlen]

/-- The facade `base` of the sample run, at which C4 applies. -/
theorem ZapLogger_New_fields_witness :
    Sample.base.2.fields.Valid Sample.base.1.heap ∧
    (Sample.base.2.New Sample.base.1 [Val.str "req_id", Val.str "abc"]).2.fields.read
        (Sample.base.2.New Sample.base.1 [Val.str "req_id", Val.str "abc"]).1.heap =
      Sample.base.2.fields.read Sample.base.1.heap ++
        (ParseFields [Val.str "req_id", Val.str "abc"]).fields :=
  ⟨by decide,
   (ZapLogger_New_fields Sample.base.2 Sample.base.1 [Val.str "req_id", Val.str "abc"]
     (by decide)).1⟩

/-- C5: for a facade `l` whose sticky fields lie in the heap, a message and an argument
list, each of `l.Debug`, `l.Info`, `l.Warn`, `l.Error` and `l.Crit` hands `DefaultLog`, after
the entries of `ParseFields(ctx)`, one entry with the message and with `l`'s sticky fields
followed by `ParseFields(ctx)`, at Debug, Info, Warn, Error and Error; it is the only entry
of the call with that level, message and fields, and `l.Crit` does exactly what `l.Error`
does. -/
theorem ZapLogger_emit (l : ZapLogger) (w : World) (msg : String) (ctx : List Val)
    (hl : l.fields.Valid w.heap) :
    (l.Debug w msg ctx).trace =
      w.trace ++ (ParseFields ctx).logged.map (fun e => (w.DefaultLog, e)) ++
        [(w.DefaultLog, ⟨Level.Debug, msg, l.fields.read w.heap ++ (ParseFields ctx).fields⟩)] ∧
    (l.Info w msg ctx).trace =
      w.trace ++ (ParseFields ctx).logged.map (fun e => (w.DefaultLog, e)) ++
        [(w.DefaultLog, ⟨Level.Info, msg, l.fields.read w.heap ++ (ParseFields ctx).fields⟩)] ∧
    (l.Warn w msg ctx).trace =
      w.trace ++ (ParseFields ctx).logged.map (fun e => (w.DefaultLog, e)) ++
        [(w.DefaultLog, ⟨Level.Warn, msg, l.fields.read w.heap ++ (ParseFields ctx).fields⟩)] ∧
    (l.Error w msg ctx).trace =
      w.trace ++ (ParseFields ctx).logged.map (fun e => (w.DefaultLog, e)) ++
        [(w.DefaultLog, ⟨Level.Error, msg, l.fields.read w.heap ++ (ParseFields ctx).fields⟩)] ∧
    (l.Crit w msg ctx).trace =
      w.trace ++ (ParseFields ctx).logged.map (fun e => (w.DefaultLog, e)) ++
        [(w.DefaultLog, ⟨Level.Error, msg, l.fields.read w.heap ++ (ParseFields ctx).fields⟩)] ∧
    (∀ lvl : Level, lvl ≠ Level.DPanic →
      List.count
        (w.DefaultLog, (⟨lvl, msg, l.fields.read w.heap ++ (ParseFields ctx).fields⟩ : Entry))
        ((ParseFields ctx).logged.map (fun e => (w.DefaultLog, e)) ++
          [(w.DefaultLog, ⟨lvl, msg, l.fields.read w.heap ++ (ParseFields ctx).fields⟩)]) = 1) ∧
    l.Crit w msg ctx = l.Error w msg ctx := by
  have key : ∀ lvl : Level,
      (match w.ParseFields ctx with
        | (w1, parsed) =>
          match AppendFields w1.heap l.fields parsed with
          | (h2, fields) =>
            World.call { w1 with heap := h2 } w1.DefaultLog lvl msg (fields.read h2)).trace =
      w.trace ++ (ParseFields ctx).logged.map (fun e => (w.DefaultLog, e)) ++
        [(w.DefaultLog, ⟨lvl, msg, l.fields.read w.heap ++ (ParseFields ctx).fields⟩)] := by
    intro lvl
    obtain ⟨arr, heq, harr⟩ := emit_eq l w lvl msg ctx
    rw [heq, harr hl]
  refine ⟨key Level.Debug, key Level.Info, key Level.Warn, key Level.Error, key Level.Error,
    ?_, rfl⟩
  intro lvl hlvl
  rw [List.count_append, List.count_singleton_self, Nat.add_left_eq_self, List.count_eq_zero]
  intro hmem
  obtain ⟨e, he, heq⟩ := List.mem_map.mp hmem
  have hlev := ParseFields_logged_level ctx e he
  have : e = ⟨lvl, msg, l.fields.read w.heap ++ (ParseFields ctx).fields⟩ := (Prod.ext_iff.mp heq).2
  rw [this] at hlev
  exact hlvl hlev

/-- The facade `base` of the sample run with a dangling key in the call, at which C5
applies. -/
theorem ZapLogger_emit_witness :
    Sample.base.2.fields.Valid Sample.base.1.heap ∧
    (Sample.base.2.Debug Sample.base.1 "m" [Val.str "k"]).trace =
      [(0, ignoredKeyEntry (Val.str "k")),
       (0, ⟨Level.Debug, "m", [Any "svc" (Val.str "auth")]⟩)] :=
  ⟨by decide,
   (ZapLogger_emit Sample.base.2 Sample.base.1 "m" [Val.str "k"] (by decide)).1⟩

end Log15

namespace Log

open Log15

/-- The state and the settings after `resetLog`. -/
theorem resetLog_eq (w : World) (log : Types.Log) :
    resetLog w log =
      ({ heap := w.heap
         engines := w.engines ++
           [⟨if (LvlFromString (fillDefaultValue log).Loglevel).2 ≠ none then Level.Error
             else (LvlFromString (fillDefaultValue log).Loglevel).1,
             [Sink.stdout,
              Sink.file ⟨(fillDefaultValue log).LogFile, (fillDefaultValue log).MaxFileSize,
                (fillDefaultValue log).MaxBackups, (fillDefaultValue log).MaxAge,
                (fillDefaultValue log).LocalTime, (fillDefaultValue log).Compress⟩]⟩]
         DefaultLog := w.engines.length
         trace := w.trace }, fillDefaultValue log) := by
  rfl

/-- The settings after `fillDefaultValue`, with `zapcore.ErrorLevel.String()` evaluated. -/
theorem fillDefaultValue_eq (log : Types.Log) :
    fillDefaultValue log =
      { log with
        Loglevel := if log.Loglevel = "" then "error" else log.Loglevel
        LogConsoleLevel := if log.LogConsoleLevel = "" then "error" else log.LogConsoleLevel } := by
  unfold fillDefaultValue
  by_cases h1 : log.Loglevel = "" <;> by_cases h2 : log.LogConsoleLevel = "" <;>
    simp [h1, h2, Level.String]

/-- With an empty `LogFile`, `SetFileLog` changes neither the state nor the settings. -/
theorem SetFileLog_empty_file (w : World) (log : Types.Log) (hfile : log.LogFile = "") :
    SetFileLog w (some log) = (w, log) := by
  simp [SetFileLog, hfile, SetLogLevel]

/-- C8: for settings with a non-empty `LogFile`, `SetFileLog` points `DefaultLog` to a newly
built engine with the console sink and the file sink behind one severity gate; the gate is
Error when `Loglevel` is empty or not a level name and `LvlFromString(Loglevel)` otherwise.
An empty `Loglevel` or `LogConsoleLevel` becomes "error" and a non-empty one is kept; when
both are empty, both become "error" and the gate is Error. -/
theorem SetFileLog_file_gate (w : World) (log : Types.Log) (hfile : log.LogFile ≠ "") :
    (SetFileLog w (some log)).1.DefaultLog = w.engines.length ∧
    (SetFileLog w (some log)).1.engine =
      some ⟨if log.Loglevel = "" ∨ log.Loglevel ∉ knownLevels then Level.Error
            else (LvlFromString log.Loglevel).1,
            [Sink.stdout,
             Sink.file ⟨log.LogFile, log.MaxFileSize, log.MaxBackups, log.MaxAge,
               log.LocalTime, log.Compress⟩]⟩ ∧
    w.engines <+: (SetFileLog w (some log)).1.engines ∧
    (SetFileLog w (some log)).2 =
      { log with
        Loglevel := if log.Loglevel = "" then "error" else log.Loglevel
        LogConsoleLevel := if log.LogConsoleLevel = "" then "error" else log.LogConsoleLevel } ∧
    (log.Loglevel = "" → log.LogConsoleLevel = "" →
      (SetFileLog w (some log)).2.Loglevel = "error" ∧
      (SetFileLog w (some log)).2.LogConsoleLevel = "error" ∧
      (SetFileLog w (some log)).1.engine.map Core.level = some Level.Error) := by
  have hset : SetFileLog w (some log) = resetLog w log := by
    simp [SetFileLog, hfile]
  have hgate : (if (LvlFromString (fillDefaultValue log).Loglevel).2 ≠ none then Level.Error
      else (LvlFromString (fillDefaultValue log).Loglevel).1) =
      (if log.Loglevel = "" ∨ log.Loglevel ∉ knownLevels then Level.Error
        else (LvlFromString log.Loglevel).1) := by
    rw [fillDefaultValue_eq]
    by_cases h1 : log.Loglevel = ""
    · simp only [h1, if_true, true_or]
      decide
    · simp only [h1, if_false, false_or]
      by_cases h2 : log.Loglevel ∈ knownLevels
      · have := LvlFromString_of_mem _ h2
        simp [h2, this]
      · have := (LvlFromString_err_iff log.Loglevel).mpr h2
        simp [h2, this]
  have hengine : (SetFileLog w (some log)).1.engine =
      some ⟨if log.Loglevel = "" ∨ log.Loglevel ∉ knownLevels then Level.Error
            else (LvlFromString log.Loglevel).1,
            [Sink.stdout,
             Sink.file ⟨log.LogFile, log.MaxFileSize, log.MaxBackups, log.MaxAge,
               log.LocalTime, log.Compress⟩]⟩ := by
    rw [hset, resetLog_eq, hgate, fillDefaultValue_eq]
    simp [World.engine]
  refine ⟨?_, hengine, ?_, ?_, ?_⟩
  · rw [hset, resetLog_eq]
  · rw [hset, resetLog_eq]; exact List.prefix_append _ _
  · rw [hset, resetLog_eq, fillDefaultValue_eq]
  · intro h1 h2
    rw [hengine]
    rw [hset, resetLog_eq, fillDefaultValue_eq]
    simp [h1, h2]

/-- Settings with a log file and no level, at which C8 applies. -/
theorem SetFileLog_file_gate_witness :
    Sample.fileSettings.LogFile ≠ "" ∧
    (SetFileLog World.init (some Sample.fileSettings)).1.DefaultLog = World.init.engines.length :=
  ⟨by decide, (SetFileLog_file_gate World.init Sample.fileSettings (by decide)).1⟩

/-- C9, evaluated at the failing input: with an empty `LogFile` and the console level
"error", `SetFileLog` leaves the state as it was. From the initial state the engine still
gates at Debug, though `LvlFromString("error")` is Error; and after a configuration with a
log file, the engine keeps its file sink. -/
theorem SetFileLog_console_level_not_applied :
    (SetFileLog World.init (some Sample.consoleSettings)).1 = World.init ∧
    (SetFileLog World.init (some Sample.consoleSettings)).1.engine =
      some ⟨Level.Debug, [Sink.stdout]⟩ ∧
    (LvlFromString Sample.consoleSettings.LogConsoleLevel).1 = Level.Error ∧
    (SetFileLog (SetFileLog World.init (some Sample.fileSettings)).1
        (some Sample.consoleSettings)).1.engine =
      some ⟨Level.Error,
        [Sink.stdout, Sink.file ⟨"logs/chain33.log", 100, 3, 7, false, true⟩]⟩ := by
  decide

end Log

namespace Log15

/-- C10: a facade records the handle `DefaultLog` held when it was built (by `New` or by
derivation), and `resetLog` points `DefaultLog` to a newly allocated engine; yet every entry
an emission from a facade `l` hands over goes to the engine `DefaultLog` points to at the
call: if that is no longer the handle `e1` stored in `l`, each of the five methods delivers
at least one entry, all of them to the current engine and none to `e1`. -/
theorem facade_late_binding (l : ZapLogger) (w : World) (msg : String) (ctx : List Val)
    (e1 : Nat) (hbuilt : l._log = e1) (hswap : w.DefaultLog ≠ e1) :
    (∀ (w0 : World) (ctx0 : List Val), (New w0 ctx0).2._log = w0.DefaultLog) ∧
    (∀ (p : ZapLogger) (w0 : World) (ctx0 : List Val), (p.New w0 ctx0).2._log = w0.DefaultLog) ∧
    (∀ (w0 : World) (cfg : Types.Log),
      (Log.resetLog w0 cfg).1.DefaultLog = w0.engines.length ∧
      w0.engines <+: (Log.resetLog w0 cfg).1.engines) ∧
    ((l.Debug w msg ctx).trace.take w.trace.length = w.trace ∧
      w.trace.length < (l.Debug w msg ctx).trace.length ∧
      ∀ x ∈ (l.Debug w msg ctx).trace.drop w.trace.length,
        x.1 = w.DefaultLog ∧ x.1 ≠ l._log) ∧
    ((l.Info w msg ctx).trace.take w.trace.length = w.trace ∧
      w.trace.length < (l.Info w msg ctx).trace.length ∧
      ∀ x ∈ (l.Info w msg ctx).trace.drop w.trace.length,
        x.1 = w.DefaultLog ∧ x.1 ≠ l._log) ∧
    ((l.Warn w msg ctx).trace.take w.trace.length = w.trace ∧
      w.trace.length < (l.Warn w msg ctx).trace.length ∧
      ∀ x ∈ (l.Warn w msg ctx).trace.drop w.trace.length,
        x.1 = w.DefaultLog ∧ x.1 ≠ l._log) ∧
    ((l.Error w msg ctx).trace.take w.trace.length = w.trace ∧
      w.trace.length < (l.Error w msg ctx).trace.length ∧
      ∀ x ∈ (l.Error w msg ctx).trace.drop w.trace.length,
        x.1 = w.DefaultLog ∧ x.1 ≠ l._log) ∧
    ((l.Crit w msg ctx).trace.take w.trace.length = w.trace ∧
      w.trace.length < (l.Crit w msg ctx).trace.length ∧
      ∀ x ∈ (l.Crit w msg ctx).trace.drop w.trace.length,
        x.1 = w.DefaultLog ∧ x.1 ≠ l._log) := by
  have key : ∀ lvl : Level, _ := fun lvl => emit_delivery l w lvl msg ctx
  have tag : ∀ x : Nat × Entry, x.1 = w.DefaultLog → x.1 = w.DefaultLog ∧ x.1 ≠ l._log := by
    intro x hx
    exact ⟨hx, by rw [hx, hbuilt]; exact hswap⟩
  refine ⟨?_, ?_, ?_, ?_, ?_, ?_, ?_, ?_⟩
  · intro w0 ctx0
    exact (World_ParseFields_spec w0 ctx0).1
  · intro p w0 ctx0
    obtain ⟨arr, hnew, _⟩ := ZapLogger_New_eq p w0 ctx0
    rw [hnew]
  · intro w0 cfg
    rw [Log.resetLog_eq]
    exact ⟨rfl, List.prefix_append _ _⟩
  · exact ⟨(key Level.Debug).1, (key Level.Debug).2.1,
      fun x hx => tag x ((key Level.Debug).2.2 x hx)⟩
  · exact ⟨(key Level.Info).1, (key Level.Info).2.1,
      fun x hx => tag x ((key Level.Info).2.2 x hx)⟩
  · exact ⟨(key Level.Warn).1, (key Level.Warn).2.1,
      fun x hx => tag x ((key Level.Warn).2.2 x hx)⟩
  · exact ⟨(key Level.Error).1, (key Level.Error).2.1,
      fun x hx => tag x ((key Level.Error).2.2 x hx)⟩
  · exact ⟨(key Level.Error).1, (key Level.Error).2.1,
      fun x hx => tag x ((key Level.Error).2.2 x hx)⟩

/-- The facade `base` of the sample run, built while `DefaultLog` was the engine 0, emitting
after `resetLog` has replaced the handle: C10 applies. -/
theorem facade_late_binding_witness :
    Sample.base.2._log = 0 ∧
    (Log.resetLog Sample.base.1 Sample.fileSettings).1.DefaultLog ≠ 0 ∧
    ∀ x ∈ (Sample.base.2.Info (Log.resetLog Sample.base.1 Sample.fileSettings).1 "m"
        []).trace.drop (Log.resetLog Sample.base.1 Sample.fileSettings).1.trace.length,
      x.1 = (Log.resetLog Sample.base.1 Sample.fileSettings).1.DefaultLog ∧
      x.1 ≠ Sample.base.2._log :=
  ⟨by decide, by decide,
   (facade_late_binding Sample.base.2 (Log.resetLog Sample.base.1 Sample.fileSettings).1 "m" []
     0 (by decide) (by decide)).2.2.2.2.1.2.2⟩

end Log15
